import Mathlib

/-!
# Verification of the Fold-and-Batch FRI core (winterfell fork)

Shallow embedding of the batched FRI / Fold-and-Batch subsystems of the
repository: position folding, evaluation extraction, polynomial batching,
folding options, prover state discipline, transcript ordering, and the
byte-level serialization of the proof containers, together with theorems
settling the specification's claims about them.

Machine integers are modelled as `Nat`, with explicit `% 2^w` truncation
where the source casts (`as u8`, `as u16`, `as u32`).  Fallible or panicking
code is modelled with `Option` (`none` = panic / error).  Byte strings are
`List Nat` whose entries are meant to lie below 256; the primitive writers
only ever emit such entries.
-/

namespace Winterfell

/-! ## Folding primitives

`fold_positions` lives in `crate::folding` (`src/fri/src/folding.rs`), a file
the snapshot does not include.  Its behaviour is pinned by the included test
`src/fri/src/batched_verifier/tests.rs::test_extract_evaluations`, whose
comment derives "The folded positions vector is: [0, 2, 1]" for positions
`[0, 2, 4, 5, 6]` over a domain of size 8 with folding factor 2: each
position is reduced modulo the folded domain size and appended unless it is
already present (first-occurrence deduplication, no sorting).  This matches
the upstream winterfell implementation that this repository forks.  -/

/-- Modelled from the spec and the in-repo test: `crate::folding::fold_positions`
(file not included under `src/`).  Reduces every position modulo
`source_domain_size / folding_factor` and drops duplicates, keeping the
first occurrence of each folded position (the in-repo test
`test_extract_evaluations` documents the unsorted result `[0, 2, 1]`). -/
def fold_positions (positions : List Nat) (source_domain_size : Nat)
    (folding_factor : Nat) : List Nat :=
  let target_domain_size := source_domain_size / folding_factor
  positions.foldl
    (fun acc p =>
      let q := p % target_domain_size
      if q ∈ acc then acc else acc ++ [q])
    []

/-- First-occurrence duplicate removal, written as a structural recursion:
keep the head and delete its later copies. -/
def dedup_first : List Nat → List Nat
  | [] => []
  | x :: xs => x :: dedup_first (xs.filter (fun y => y ≠ x))
termination_by l => l.length
decreasing_by
  simp only [List.length_cons]
  exact Nat.lt_succ_of_le (List.length_filter_le _ _)

/-- Inner loop of `fold_positions`, exposed for reasoning. -/
def fold_positions_go (target : Nat) (acc : List Nat) (l : List Nat) : List Nat :=
  l.foldl
    (fun acc p =>
      let q := p % target
      if q ∈ acc then acc else acc ++ [q])
    acc

lemma fold_positions_eq_go (positions : List Nat) (D N : Nat) :
    fold_positions positions D N = fold_positions_go (D / N) [] positions := rfl

lemma fold_positions_go_nil (target : Nat) (acc : List Nat) :
    fold_positions_go target acc [] = acc := rfl

lemma fold_positions_go_cons (target : Nat) (acc : List Nat) (p : Nat) (l : List Nat) :
    fold_positions_go target acc (p :: l) =
      fold_positions_go target
        (if p % target ∈ acc then acc else acc ++ [p % target]) l := rfl

lemma dedup_first_nil : dedup_first [] = [] := by
  rw [dedup_first]

lemma dedup_first_cons (x : Nat) (xs : List Nat) :
    dedup_first (x :: xs) = x :: dedup_first (xs.filter (fun y => y ≠ x)) := by
  rw [dedup_first]

/-- Generic accumulator lemma: the fold produces the accumulator followed by
the first-occurrence deduplication of the not-yet-seen residues. -/
lemma fold_positions_go_eq (target : Nat) :
    ∀ (l : List Nat) (acc : List Nat),
      fold_positions_go target acc l =
        acc ++ dedup_first ((l.map (fun p => p % target)).filter
          (fun q => q ∉ acc)) := by
  intro l
  induction l with
  | nil => intro acc; simp [fold_positions_go_nil, dedup_first_nil]
  | cons p l ih =>
    intro acc
    rw [fold_positions_go_cons]
    simp only [List.map_cons, List.filter_cons]
    by_cases hmem : p % target ∈ acc
    · rw [if_pos hmem, ih acc]
      have : (decide (p % target ∉ acc)) = false := by simp [hmem]
      simp [this]
    · rw [if_neg hmem, ih (acc ++ [p % target])]
      have hdec : (decide (p % target ∉ acc)) = true := by simp [hmem]
      simp only [hdec, if_pos, List.append_assoc, List.cons_append, List.nil_append]
      congr 1
      rw [dedup_first_cons]
      congr 2
      rw [List.filter_filter]
      apply List.filter_congr
      intro q _
      by_cases h1 : q = p % target <;> by_cases h2 : q ∈ acc <;>
        simp [h1, h2]

/-- The function `fold_positions` is the first-occurrence deduplication of the residues. -/
lemma fold_positions_eq_dedup (positions : List Nat) (D N : Nat) :
    fold_positions positions D N =
      dedup_first (positions.map (fun p => p % (D / N))) := by
  rw [fold_positions_eq_go, fold_positions_go_eq]
  simp

lemma mem_dedup_first_aux :
    ∀ (n : Nat) (l : List Nat), l.length ≤ n →
      ∀ x, (x ∈ dedup_first l ↔ x ∈ l) := by
  intro n
  induction n with
  | zero =>
    intro l hl x
    have : l = [] := List.length_eq_zero.mp (Nat.le_zero.mp hl)
    subst this
    simp [dedup_first_nil]
  | succ n ih =>
    intro l hl x
    match l with
    | [] => simp [dedup_first_nil]
    | y :: ys =>
      rw [dedup_first_cons]
      have hlen : (ys.filter (fun z => z ≠ y)).length ≤ n := by
        have h1 : (ys.filter (fun z => z ≠ y)).length ≤ ys.length :=
          List.length_filter_le _ _
        have h2 : ys.length ≤ n := by
          simpa [Nat.succ_le_succ_iff] using hl
        omega
      simp only [List.mem_cons]
      constructor
      · rintro (rfl | hx)
        · exact Or.inl rfl
        · exact Or.inr (List.mem_of_mem_filter
            ((ih _ hlen x).mp hx))
      · rintro (rfl | hx)
        · exact Or.inl rfl
        · by_cases hxy : x = y
          · exact Or.inl hxy
          · exact Or.inr ((ih _ hlen x).mpr
              (List.mem_filter.mpr ⟨hx, by simp [hxy]⟩))

/-- Membership in `dedup_first` is membership in the original list. -/
lemma mem_dedup_first (l : List Nat) (x : Nat) : x ∈ dedup_first l ↔ x ∈ l :=
  mem_dedup_first_aux l.length l le_rfl x

/-- Every residue of an input position occurs in the folded positions. -/
lemma mem_fold_positions {positions : List Nat} {D N p : Nat}
    (hp : p ∈ positions) :
    p % (D / N) ∈ fold_positions positions D N := by
  rw [fold_positions_eq_dedup, mem_dedup_first]
  exact List.mem_map_of_mem _ hp

lemma nodup_dedup_first_aux :
    ∀ (n : Nat) (l : List Nat), l.length ≤ n → (dedup_first l).Nodup := by
  intro n
  induction n with
  | zero =>
    intro l hl
    have : l = [] := List.length_eq_zero.mp (Nat.le_zero.mp hl)
    subst this
    simp [dedup_first_nil]
  | succ n ih =>
    intro l hl
    match l with
    | [] => simp [dedup_first_nil]
    | y :: ys =>
      rw [dedup_first_cons]
      have hlen : (ys.filter (fun z => z ≠ y)).length ≤ n := by
        have h1 : (ys.filter (fun z => z ≠ y)).length ≤ ys.length :=
          List.length_filter_le _ _
        have h2 : ys.length ≤ n := by
          simpa [Nat.succ_le_succ_iff] using hl
        omega
      refine List.nodup_cons.mpr ⟨?_, ih _ hlen⟩
      intro hy
      have := (mem_dedup_first _ _).mp hy
      have := (List.mem_filter.mp this).2
      simp at this

/-- The function `dedup_first` returns a duplicate-free list. -/
lemma nodup_dedup_first (l : List Nat) : (dedup_first l).Nodup :=
  nodup_dedup_first_aux l.length l le_rfl

/-! ## Evaluation extraction (`src/fri/src/batched_verifier/mod.rs`) -/

/-- Embedding of Rust's `iter().position(|&x| x == target)`: index of the
first occurrence of `x` in `l`, if any. -/
def list_position (l : List Nat) (x : Nat) : Option Nat :=
  match l with
  | [] => none
  | y :: ys => if y = x then some 0 else (list_position ys x).map (fun i => i + 1)

/-- Sequential `Option`-propagating map, mirroring a Rust loop that pushes
into a vector and panics (or propagates a failure) on the first bad item. -/
def option_map_list {A B : Type} (f : A → Option B) : List A → Option (List B)
  | [] => some []
  | a :: l =>
    match f a, option_map_list f l with
    | some b, some bs => some (b :: bs)
    | _, _ => none

/-- First loop of `extract_evaluations`: for each query position, locate its
folded position inside the `fold_positions` output and derive the index of
the corresponding entry in the transposed queried values.  The `none` case
is the `panic!` branch of the source. -/
def extract_indices (query_positions : List Nat)
    (domain_size folding_factor : Nat) : Option (List Nat) :=
  let folded_domain_size := domain_size / folding_factor
  let folded_positions := fold_positions query_positions domain_size folding_factor
  option_map_list
    (fun position =>
      (list_position folded_positions (position % folded_domain_size)).map
        (fun index => index * folding_factor + position / folded_domain_size))
    query_positions

/-- Embeds `extract_evaluations` from `src/fri/src/batched_verifier/mod.rs`:
recovers, for every queried value vector (stored in transposed layout), the
evaluations at the original query positions.  `none` models the `panic!`
branch (folded position not found) and out-of-bounds indexing. -/
def extract_evaluations {R : Type} (query_positions : List Nat)
    (queried_values : List (List R)) (domain_size folding_factor : Nat) :
    Option (List (List R)) :=
  match extract_indices query_positions domain_size folding_factor with
  | none => none
  | some indices =>
      option_map_list
        (fun eval_vector =>
          option_map_list (fun index => eval_vector.get? index) indices)
        queried_values

/-- Row `f` of the transposed `(D/N) × N` layout of an evaluation vector:
`v[f], v[f + D/N], …, v[f + (N-1)·D/N]` (spec §4.1; `transpose_slice` in the
source).  `z` is a default that is never reached for in-range inputs. -/
def transposed_row {R : Type} (z : R) (v : List R) (target N f : Nat) : List R :=
  (List.range N).map (fun j => v.getD (f + j * target) z)

/-- The queried-values layout produced by the prover's `query_layer`
(`src/fri/src/batched_prover/mod.rs`): the transposed rows at the folded
positions, flattened. -/
def query_layer_values {R : Type} (z : R) (v : List R) (positions : List Nat)
    (D N : Nat) : List R :=
  ((fold_positions positions D N).map (transposed_row z v (D / N) N)).flatten

lemma list_position_isSome {l : List Nat} {x : Nat} (h : x ∈ l) :
    (list_position l x).isSome := by
  induction l with
  | nil => cases h
  | cons y ys ih =>
    by_cases hxy : y = x
    · simp [list_position, hxy]
    · rcases List.mem_cons.mp h with rfl | hmem
      · exact absurd rfl hxy
      · rcases Option.isSome_iff_exists.mp (ih hmem) with ⟨i, hi⟩
        simp [list_position, if_neg hxy, hi]

lemma list_position_get? {l : List Nat} {x i : Nat}
    (h : list_position l x = some i) : l.get? i = some x := by
  induction l generalizing i with
  | nil => simp [list_position] at h
  | cons y ys ih =>
    by_cases hxy : y = x
    · simp only [list_position, if_pos hxy] at h
      cases h
      simpa using hxy
    · simp only [list_position, if_neg hxy, Option.map_eq_some'] at h
      obtain ⟨i', hi', rfl⟩ := h
      simpa using ih hi'

lemma option_map_list_isSome {A B : Type} {f : A → Option B} {l : List A}
    (h : ∀ a ∈ l, (f a).isSome) : (option_map_list f l).isSome := by
  induction l with
  | nil => simp [option_map_list]
  | cons a l ih =>
    have ha := h a (List.mem_cons_self a l)
    have hl := ih (fun x hx => h x (List.mem_cons_of_mem a hx))
    rw [option_map_list]
    rcases Option.isSome_iff_exists.mp ha with ⟨b, hb⟩
    rcases Option.isSome_iff_exists.mp hl with ⟨bs, hbs⟩
    rw [hb, hbs]
    rfl

lemma option_map_list_map {A B : Type} (f : A → Option B) (g : A → B)
    (l : List A) (h : ∀ a ∈ l, f a = some (g a)) :
    option_map_list f l = some (l.map g) := by
  induction l with
  | nil => simp [option_map_list]
  | cons a l ih =>
    rw [option_map_list, h a (List.mem_cons_self a l),
      ih (fun x hx => h x (List.mem_cons_of_mem a hx))]
    simp

lemma option_map_list_comp_map {A B C : Type} (g : A → B) (f : B → Option C)
    (l : List A) :
    option_map_list f (l.map g) = option_map_list (fun a => f (g a)) l := by
  induction l with
  | nil => simp [option_map_list]
  | cons a l ih => rw [List.map_cons, option_map_list, option_map_list, ih]

lemma transposed_row_length {R : Type} (z : R) (v : List R) (target N f : Nat) :
    (transposed_row z v target N f).length = N := by
  simp [transposed_row]

lemma transposed_row_get? {R : Type} (z : R) (v : List R) (target N f j : Nat)
    (hj : j < N) :
    (transposed_row z v target N f).get? j = some (v.getD (f + j * target) z) := by
  simp only [transposed_row, List.get?_eq_getElem?, List.getElem?_map]
  refine Option.map_eq_some'.mpr ⟨j, ?_, rfl⟩
  simp [List.getElem?_range, hj]

/-- Indexing into the flattening of equal-length blocks: entry `i * N + j`
is entry `j` of block `i`. -/
lemma flatten_map_get? {A B : Type} (f : A → List B) (N : Nat)
    (hN : ∀ a, (f a).length = N) :
    ∀ (l : List A) (i j : Nat), j < N → ∀ a, l.get? i = some a →
      (l.map f).flatten.get? (i * N + j) = (f a).get? j := by
  intro l
  induction l with
  | nil => intro i j _ a ha; simp at ha
  | cons x xs ih =>
    intro i j hj a ha
    match i with
    | 0 =>
      simp only [List.get?_cons_zero, Option.some_inj] at ha
      subst ha
      simp only [List.map_cons, List.flatten_cons, Nat.zero_mul, Nat.zero_add]
      exact List.get?_append (by rw [hN]; exact hj)
    | i + 1 =>
      simp only [List.get?_cons_succ] at ha
      simp only [List.map_cons, List.flatten_cons]
      have hidx : (i + 1) * N + j = (f x).length + (i * N + j) := by
        rw [hN x]; ring
      rw [hidx, List.get?_append_right (Nat.le_add_right _ _)]
      rw [Nat.add_sub_cancel_left]
      exact ih i j hj a ha

/-- The entry of the transposed queried-values layout located by
`extract_evaluations`' index arithmetic is the original evaluation. -/
lemma query_layer_values_get {R : Type} (z : R) (v : List R)
    (positions : List Nat) (D N p i : Nat)
    (hN : 0 < N) (hdvd : N ∣ D) (hD : 0 < D)
    (hv : v.length = D) (hp : p < D)
    (hi : list_position (fold_positions positions D N) (p % (D / N)) = some i) :
    (query_layer_values z v positions D N).get? (i * N + p / (D / N)) =
      some (v.getD p z) := by
  have htN : D / N * N = D := Nat.div_mul_cancel hdvd
  have ht : 0 < D / N := by
    rcases Nat.eq_zero_or_pos (D / N) with h0 | h
    · rw [h0] at htN; omega
    · exact h
  have hj : p / (D / N) < N := by
    have h2 : N * (D / N) = D := by rw [Nat.mul_comm]; exact htN
    rw [Nat.div_lt_iff_lt_mul ht, h2]
    exact hp
  have hfold := list_position_get? hi
  rw [query_layer_values,
    flatten_map_get? (transposed_row z v (D / N) N)
      N (fun f => transposed_row_length z v (D / N) N f)
      (fold_positions positions D N) i (p / (D / N)) hj (p % (D / N)) hfold,
    transposed_row_get? _ _ _ _ _ _ hj, Nat.mod_add_div']

/-! ## Batching linearity (`combine_poly_evaluations`,
`src/fri/src/batched_prover/mod.rs`) -/

/-- Embeds `combine_poly_evaluations` from `src/fri/src/batched_prover/mod.rs`:
linearly combines equal-length evaluation vectors with powers of the batched
FRI challenge.  `none` models the assertion failure on an empty input list;
the `getD … 0` default models the (out-of-bounds) panic of Rust indexing and
is unreachable for equal-length inputs. -/
def combine_poly_evaluations {R : Type} [CommRing R]
    (evaluations : List (List R)) (batched_fri_challenge : R) :
    Option (List R) :=
  if evaluations.length = 0 then none
  else
    some ((List.range (evaluations.headD []).length).map (fun j =>
      (evaluations.foldl
        (fun acc v => (acc.1 + acc.2 * v.getD j 0, acc.2 * batched_fri_challenge))
        ((0 : R), (1 : R))).1))

lemma combine_fold {R : Type} [CommRing R] (alpha : R) (j : Nat) :
    ∀ (l : List (List R)) (s m : R),
      l.foldl (fun acc v => (acc.1 + acc.2 * v.getD j 0, acc.2 * alpha)) (s, m) =
        (s + m * ∑ i ∈ Finset.range l.length, alpha ^ i * (l.getD i []).getD j 0,
          m * alpha ^ l.length) := by
  intro l
  induction l with
  | nil => intro s m; simp
  | cons v l ih =>
    intro s m
    rw [List.foldl_cons, ih]
    dsimp only
    rw [Prod.ext_iff]
    refine ⟨?_, ?_⟩
    · simp only [List.length_cons, Finset.sum_range_succ',
        List.getD_cons_succ, List.getD_cons_zero, pow_zero, one_mul]
      have hsum : ∑ i ∈ Finset.range l.length,
          alpha ^ (i + 1) * (l.getD i []).getD j 0 =
            alpha * ∑ i ∈ Finset.range l.length,
              alpha ^ i * (l.getD i []).getD j 0 := by
        rw [Finset.mul_sum]
        refine Finset.sum_congr rfl ?_
        intro i _
        ring
      rw [hsum]
      ring
    · simp only [List.length_cons, pow_succ]
      ring

/-- The base-field modulus of `math::fields::f128::BaseElement`
(`2^128 - 45 * 2^40 + 1`), the field used by the repository's tests. -/
def f128_modulus : Nat := 340282366920938463463374557953744961537

/-- The f128 base field, as used in the repository's tests. -/
abbrev Felt := ZMod f128_modulus

/-! ## Claim C3: batching linearity -/

/-- C3: `combine_poly_evaluations` applied to a non-empty list of
equal-length evaluation vectors returns a vector of the same length whose
entry `j` is `Σ_{i<m} α^i · v_i[j]`. -/
theorem combine_poly_evaluations_linear {R : Type} [CommRing R]
    (evals : List (List R)) (alpha : R) (n : Nat)
    (hne : evals ≠ []) (hlen : ∀ v ∈ evals, v.length = n) :
    ∃ out, combine_poly_evaluations evals alpha = some out ∧
      out.length = n ∧
      ∀ j, j < n →
        out.getD j 0 =
          ∑ i ∈ Finset.range evals.length,
            alpha ^ i * (evals.getD i []).getD j 0 := by
  have hlen0 : evals.length ≠ 0 := by
    intro h
    exact hne (List.length_eq_zero.mp h)
  have hhead : (evals.head?.getD []).length = n := by
    match evals, hne with
    | v :: rest, _ => exact hlen v (List.mem_cons_self v rest)
  refine ⟨_, by rw [combine_poly_evaluations, if_neg hlen0], ?_, ?_⟩
  · simp only [List.length_map, List.length_range, List.headD_eq_head?]
    exact hhead
  · intro j hj
    have hget :
        ((List.range (evals.headD []).length).map (fun j =>
          (evals.foldl
            (fun acc v => (acc.1 + acc.2 * v.getD j 0, acc.2 * alpha))
            ((0 : R), (1 : R))).1)).getD j 0 =
          (evals.foldl
            (fun acc v => (acc.1 + acc.2 * v.getD j 0, acc.2 * alpha))
            ((0 : R), (1 : R))).1 := by
      rw [List.getD_eq_getElem?_getD, List.getElem?_map]
      rw [show (List.range (evals.headD []).length)[j]? = some j from by
        simp [List.getElem?_range, hhead, hj]]
      rfl
    rw [hget, combine_fold]
    simp

/-- C3 witness: the repository test instance over the f128 field, including
the concrete seed scenarios `α = 5 ↦ [165, 196, 227]` and
`α = 10 ↦ [630, 741, 852]`. -/
theorem combine_poly_evaluations_linear_witness :
    (([[0,1,2],[3,4,5],[6,7,8]] : List (List Felt)) ≠ [] ∧
      (∀ v ∈ ([[0,1,2],[3,4,5],[6,7,8]] : List (List Felt)), v.length = 3)) ∧
    (∃ out, combine_poly_evaluations
        ([[0,1,2],[3,4,5],[6,7,8]] : List (List Felt)) 5 = some out ∧
      out.length = 3 ∧
      ∀ j, j < 3 →
        out.getD j 0 =
          ∑ i ∈ Finset.range ([[0,1,2],[3,4,5],[6,7,8]] : List (List Felt)).length,
            (5 : Felt) ^ i *
              (([[0,1,2],[3,4,5],[6,7,8]] : List (List Felt)).getD i []).getD j 0) ∧
    combine_poly_evaluations ([[0,1,2],[3,4,5],[6,7,8]] : List (List Felt)) 5 =
      some [165, 196, 227] ∧
    combine_poly_evaluations ([[0,1,2],[3,4,5],[6,7,8]] : List (List Felt)) 10 =
      some [630, 741, 852] :=
  ⟨⟨by decide, by decide⟩,
    combine_poly_evaluations_linear
      ([[0,1,2],[3,4,5],[6,7,8]] : List (List Felt)) 5 3 (by decide) (by decide),
    by decide, by decide⟩

/-! ## Claim C4: position extraction correctness -/

/-- C4: on queried values laid out by the prover's transposed layout
(`query_layer_values`), `extract_evaluations` recovers, for every input
vector and every query position, exactly the original evaluation at that
position. -/
theorem extract_evaluations_transposed_layout {R : Type} (z : R)
    (vs : List (List R)) (positions : List Nat) (D N : Nat)
    (hN : 0 < N) (hdvd : N ∣ D) (hD : 0 < D)
    (hlen : ∀ v ∈ vs, v.length = D)
    (hpos : ∀ p ∈ positions, p < D) :
    extract_evaluations positions
        (vs.map (fun v => query_layer_values z v positions D N)) D N =
      some (vs.map (fun v => positions.map (fun p => v.getD p z))) := by
  have hidx :
      extract_indices positions D N =
        some (positions.map (fun p =>
          ((list_position (fold_positions positions D N) (p % (D / N))).getD 0)
            * N + p / (D / N))) := by
    rw [extract_indices]
    refine option_map_list_map _ _ _ ?_
    intro p hp
    rcases Option.isSome_iff_exists.mp
      (list_position_isSome (mem_fold_positions (D := D) (N := N) hp)) with ⟨i, hi⟩
    rw [hi]
    simp [hi]
  rw [extract_evaluations, hidx]
  dsimp only
  rw [option_map_list_comp_map]
  refine option_map_list_map _ _ _ ?_
  intro v hv
  rw [option_map_list_comp_map]
  refine option_map_list_map _ _ _ ?_
  intro p hp
  rcases Option.isSome_iff_exists.mp
    (list_position_isSome (mem_fold_positions (D := D) (N := N) hp)) with ⟨i, hi⟩
  rw [hi]
  simp only [Option.getD_some]
  exact query_layer_values_get z v positions D N p i hN hdvd hD
    (hlen v hv) (hpos p hp) hi

/-- C4 witness: the repository test instance over the f128 field, including
the literal scenario `extract_evaluations([0,2,4,5,6], [[8,4,6,2,7,3]], 8, 2)
= [[8,6,4,3,2]]` (the layout of `[[8,4,6,2,7,3]]` for the original vector
`[8,7,6,5,4,3,2,1]` is checked by evaluation). -/
theorem extract_evaluations_transposed_layout_witness :
    ((0 : Nat) < 2 ∧ (2 : Nat) ∣ 8 ∧ (0 : Nat) < 8 ∧
      (∀ v ∈ ([[8,7,6,5,4,3,2,1]] : List (List Felt)), v.length = 8) ∧
      (∀ p ∈ [0,2,4,5,6], p < 8)) ∧
    extract_evaluations [0,2,4,5,6]
        (([[8,7,6,5,4,3,2,1]] : List (List Felt)).map
          (fun v => query_layer_values (0 : Felt) v [0,2,4,5,6] 8 2)) 8 2 =
      some (([[8,7,6,5,4,3,2,1]] : List (List Felt)).map
        (fun v => [0,2,4,5,6].map (fun p => v.getD p (0 : Felt)))) ∧
    ([[8,7,6,5,4,3,2,1]] : List (List Felt)).map
        (fun v => query_layer_values (0 : Felt) v [0,2,4,5,6] 8 2) =
      [[8,4,6,2,7,3]] ∧
    extract_evaluations [0,2,4,5,6] ([[8,4,6,2,7,3]] : List (List Felt)) 8 2 =
      some [[8,6,4,3,2]] :=
  ⟨⟨by decide, by decide, by decide, by decide, by decide⟩,
    extract_evaluations_transposed_layout (0 : Felt) [[8,7,6,5,4,3,2,1]]
      [0,2,4,5,6] 8 2 (by decide) (by decide) (by decide) (by decide) (by decide),
    by decide, by decide⟩

/-! ## Claim C5: fold_positions -/

/-- C5 counterexample: `fold_positions([0,2,4,5,6], 8, 2)` is `[0, 2, 1]`
(first-occurrence order), not the sorted `[0, 1, 2]` the claim states. -/
theorem fold_positions_not_sorted :
    fold_positions [0, 2, 4, 5, 6] 8 2 = [0, 2, 1] ∧
    fold_positions [0, 2, 4, 5, 6] 8 2 ≠ [0, 1, 2] := by decide

/-- C5 (amended): `fold_positions` returns the duplicate-free list of
`p mod (D/N)` for `p` over the input positions, keeping the order of first
occurrence (not sorted); in particular
`fold_positions([0,2,4,5,6], 8, 2) = [0, 2, 1]`. -/
theorem fold_positions_first_occurrence_dedup :
    (∀ (positions : List Nat) (D N : Nat),
      fold_positions positions D N =
        dedup_first (positions.map (fun p => p % (D / N)))) ∧
    (∀ (positions : List Nat) (D N : Nat),
      (fold_positions positions D N).Nodup) ∧
    (∀ (positions : List Nat) (D N : Nat) (x : Nat),
      x ∈ fold_positions positions D N ↔ ∃ p ∈ positions, p % (D / N) = x) ∧
    fold_positions [0, 2, 4, 5, 6] 8 2 = [0, 2, 1] := by
  refine ⟨fold_positions_eq_dedup, ?_, ?_, by decide⟩
  · intro positions D N
    rw [fold_positions_eq_dedup]
    exact nodup_dedup_first _
  · intro positions D N x
    rw [fold_positions_eq_dedup, mem_dedup_first, List.mem_map]

/-! ## Claim C10: the panic branch of extract_evaluations is unreachable -/

/-- C10: when the folded positions are computed from the same position list
(and `N` divides `D`), every position's folded position occurs in
`fold_positions`' output, so the index-building loop of
`extract_evaluations` never reaches its `panic!` branch. -/
theorem extract_evaluations_panic_branch_unreachable
    (positions : List Nat) (D N : Nat) (hN : 0 < N) (hdvd : N ∣ D) :
    (∀ p ∈ positions, p % (D / N) ∈ fold_positions positions D N) ∧
    (extract_indices positions D N).isSome := by
  refine ⟨fun p hp => mem_fold_positions hp, ?_⟩
  rw [extract_indices]
  refine option_map_list_isSome ?_
  intro p hp
  rcases Option.isSome_iff_exists.mp
    (list_position_isSome (mem_fold_positions (D := D) (N := N) hp)) with ⟨i, hi⟩
  simp [hi]

/-- C10 witness: the test instance `positions = [0,2,4,5,6]`, `D = 8`,
`N = 2`. -/
theorem extract_evaluations_panic_branch_unreachable_witness :
    ((0 : Nat) < 2 ∧ (2 : Nat) ∣ 8) ∧
    ((∀ p ∈ [0,2,4,5,6], p % (8 / 2) ∈ fold_positions [0,2,4,5,6] 8 2) ∧
      (extract_indices [0,2,4,5,6] 8 2).isSome) :=
  ⟨⟨by decide, by decide⟩,
    extract_evaluations_panic_branch_unreachable [0,2,4,5,6] 8 2
      (by decide) (by decide)⟩

/-! ## FoldingOptions (`src/fri/src/fold_and_batch_prover/options.rs`) -/

/-- Rust's `usize::is_power_of_two` (`count_ones() == 1`): true exactly when
`n = 2^k` for some `k` (in particular false at 0).  Written as a bounded
search so it evaluates by `decide`. -/
def is_power_of_two (n : Nat) : Bool :=
  (List.range (n + 1)).any (fun k => n == 2 ^ k)

/-- FRI protocol config options for folding proof generation/verification
(`FoldingOptions` in `src/fri/src/fold_and_batch_prover/options.rs`). -/
structure FoldingOptions where
  folding_factor : Nat
  blowup_factor : Nat
  domain_size : Nat
  last_poly_max_degree : Nat
deriving DecidableEq

/-- Embeds `FoldingOptions::new`: `none` models the assertion panics (blowup factor
not a power of two, or unsupported folding factor). -/
def FoldingOptions.new (blowup_factor folding_factor domain_size
    last_poly_max_degree : Nat) : Option FoldingOptions :=
  if is_power_of_two blowup_factor = false then none
  else if ¬(folding_factor = 2 ∨ folding_factor = 4 ∨ folding_factor = 8 ∨
      folding_factor = 16) then none
  else some ⟨folding_factor, blowup_factor, domain_size, last_poly_max_degree⟩

/-- The `while current_domain_size > max_last_eval_vector_size` loop of
`FoldingOptions::num_fri_layers`, counting divisions by the folding factor.
The `2 ≤ folding_factor` conjunct in the guard only ensures termination in
Lean; `FoldingOptions::new` guarantees it for every constructible options
value, and the loop would not terminate in Rust without it either. -/
def fri_layers_loop (folding_factor max_size current : Nat) : Nat :=
  if h : max_size < current ∧ 2 ≤ folding_factor then
    fri_layers_loop folding_factor max_size (current / folding_factor) + 1
  else 0
termination_by current
decreasing_by exact Nat.div_lt_self (by omega) h.2

/-- Embeds `FoldingOptions::num_fri_layers`: number of foldings needed to bring the
domain below `(last_poly_max_degree + 1).next_power_of_two() * blowup_factor`,
plus one. -/
def FoldingOptions.num_fri_layers (o : FoldingOptions) : Nat :=
  fri_layers_loop o.folding_factor
    ((o.last_poly_max_degree + 1).nextPowerOfTwo * o.blowup_factor)
    o.domain_size + 1

lemma fri_layers_loop_spec (ff m : Nat) (hff : 2 ≤ ff) :
    ∀ c, c / ff ^ fri_layers_loop ff m c ≤ m ∧
      ∀ r, c / ff ^ r ≤ m → fri_layers_loop ff m c ≤ r := by
  intro c
  induction c using Nat.strong_induction_on with
  | _ c ih =>
    by_cases hc : m < c
    · have hguard : m < c ∧ 2 ≤ ff := ⟨hc, hff⟩
      rw [fri_layers_loop, dif_pos hguard]
      have hlt : c / ff < c := Nat.div_lt_self (by omega) hff
      obtain ⟨ih1, ih2⟩ := ih (c / ff) hlt
      constructor
      · rw [pow_succ, Nat.mul_comm, ← Nat.div_div_eq_div_mul]
        exact ih1
      · intro r hr
        match r with
        | 0 =>
          simp only [pow_zero, Nat.div_one] at hr
          omega
        | r + 1 =>
          have : c / ff / ff ^ r ≤ m := by
            rw [Nat.div_div_eq_div_mul, Nat.mul_comm, ← pow_succ]
            exact hr
          exact Nat.succ_le_succ (ih2 r this)
    · rw [fri_layers_loop, dif_neg (by omega)]
      refine ⟨by simpa using Nat.le_of_not_lt hc, fun r _ => Nat.zero_le r⟩

/-! ## Claim C7: number of partial FRI layers -/

/-- C7: `FoldingOptions::num_fri_layers()` is the smallest `k ≥ 1` such that
`domain_size / folding_factor^(k-1)` is at most
`(last_poly_max_degree + 1).next_power_of_two() * blowup_factor`. -/
theorem num_fri_layers_least (o : FoldingOptions)
    (hff : o.folding_factor = 2 ∨ o.folding_factor = 4 ∨
      o.folding_factor = 8 ∨ o.folding_factor = 16)
    (hds : is_power_of_two o.domain_size = true)
    (hbf : is_power_of_two o.blowup_factor = true) :
    1 ≤ o.num_fri_layers ∧
    o.domain_size / o.folding_factor ^ (o.num_fri_layers - 1) ≤
      (o.last_poly_max_degree + 1).nextPowerOfTwo * o.blowup_factor ∧
    ∀ k, 1 ≤ k →
      o.domain_size / o.folding_factor ^ (k - 1) ≤
        (o.last_poly_max_degree + 1).nextPowerOfTwo * o.blowup_factor →
      o.num_fri_layers ≤ k := by
  have h2 : 2 ≤ o.folding_factor := by rcases hff with h | h | h | h <;> omega
  obtain ⟨h1, hmin⟩ := fri_layers_loop_spec o.folding_factor
    ((o.last_poly_max_degree + 1).nextPowerOfTwo * o.blowup_factor) h2
    o.domain_size
  refine ⟨by simp [FoldingOptions.num_fri_layers], ?_, ?_⟩
  · simpa [FoldingOptions.num_fri_layers] using h1
  · intro k hk hle
    have := hmin (k - 1) hle
    simp only [FoldingOptions.num_fri_layers]
    omega

/-- C7 witness: `blowup = 2`, `folding_factor = 2`, `domain_size = 16`,
`last_poly_max_degree = 0` (so the bound is 2 and four layers are built). -/
theorem num_fri_layers_least_witness :
    (((⟨2, 2, 16, 0⟩ : FoldingOptions).folding_factor = 2 ∨
      (⟨2, 2, 16, 0⟩ : FoldingOptions).folding_factor = 4 ∨
      (⟨2, 2, 16, 0⟩ : FoldingOptions).folding_factor = 8 ∨
      (⟨2, 2, 16, 0⟩ : FoldingOptions).folding_factor = 16) ∧
      is_power_of_two (⟨2, 2, 16, 0⟩ : FoldingOptions).domain_size = true ∧
      is_power_of_two (⟨2, 2, 16, 0⟩ : FoldingOptions).blowup_factor = true) ∧
    (1 ≤ (⟨2, 2, 16, 0⟩ : FoldingOptions).num_fri_layers ∧
      (⟨2, 2, 16, 0⟩ : FoldingOptions).domain_size /
          (⟨2, 2, 16, 0⟩ : FoldingOptions).folding_factor ^
            ((⟨2, 2, 16, 0⟩ : FoldingOptions).num_fri_layers - 1) ≤
        ((⟨2, 2, 16, 0⟩ : FoldingOptions).last_poly_max_degree + 1).nextPowerOfTwo *
          (⟨2, 2, 16, 0⟩ : FoldingOptions).blowup_factor ∧
      ∀ k, 1 ≤ k →
        (⟨2, 2, 16, 0⟩ : FoldingOptions).domain_size /
            (⟨2, 2, 16, 0⟩ : FoldingOptions).folding_factor ^ (k - 1) ≤
          ((⟨2, 2, 16, 0⟩ : FoldingOptions).last_poly_max_degree + 1).nextPowerOfTwo *
            (⟨2, 2, 16, 0⟩ : FoldingOptions).blowup_factor →
        (⟨2, 2, 16, 0⟩ : FoldingOptions).num_fri_layers ≤ k) :=
  ⟨⟨by decide, by decide, by decide⟩,
    num_fri_layers_least ⟨2, 2, 16, 0⟩ (by decide) (by decide) (by decide)⟩

/-! ## FoldingProver (`src/fri/src/fold_and_batch_prover/mod.rs`)

`build_layers` is embedded at the level claim C8 is about: its dirty-state
assertion, the per-iteration folding-factor dispatch (whose default arm is
`unimplemented!`), and the layer bookkeeping.  The body of `build_layer`
(vector commitment, channel reseed, drawing `α`, DRP) combines the external
crypto/FFT collaborators; it is abstracted as a `step` function from
`(channel, evaluations)` to `(channel, folded evaluations, layer)`, which
the claim quantifies over. -/

/-- One pass of the `for i in 0..num_fri_layers_to_build()` loop of
`FoldingProver::build_layers`.  Arguments: remaining iterations, layers
built so far, channel state, current evaluations, last recorded evaluation
vector.  `none` models the `unimplemented!` panic on an unsupported folding
factor. -/
def build_layers_loop {E D C : Type} (step : C → List E → C × List E × D)
    (folding_factor : Nat) :
    Nat → List D → C → List E → List E → Option (List D × C × List E × List E)
  | 0, layers, ch, evals, last => some (layers, ch, evals, last)
  | n + 1, layers, ch, evals, _ =>
    if folding_factor = 2 ∨ folding_factor = 4 ∨ folding_factor = 8 ∨
        folding_factor = 16 then
      match step ch evals with
      | (ch', evals', layer) =>
          build_layers_loop step folding_factor n (layers ++ [layer]) ch' evals' evals
    else none

/-- Embeds `FoldingProver::build_layers`: `none` models a panic (dirty prover state,
or unsupported folding factor inside the loop).  On success returns the
prover's new `layers` vector, the channel, and the recorded last evaluation
vector (the function's return value). -/
def FoldingProver.build_layers {E D C : Type}
    (step : C → List E → C × List E × D) (options : FoldingOptions)
    (layers : List D) (channel : C) (evaluations : List E) :
    Option (List D × C × List E) :=
  if layers.isEmpty then
    match build_layers_loop step options.folding_factor options.num_fri_layers
        [] channel evaluations [] with
    | none => none
    | some (layers', ch', _, last) => some (layers', ch', last)
  else none

lemma build_layers_loop_supported {E D C : Type}
    (step : C → List E → C × List E × D) (ff : Nat)
    (hff : ff = 2 ∨ ff = 4 ∨ ff = 8 ∨ ff = 16) :
    ∀ (n : Nat) (layers : List D) (ch : C) (evals last : List E),
      ∃ layers' ch' evals' last',
        build_layers_loop step ff n layers ch evals last =
          some (layers', ch', evals', last') ∧
        layers'.length = layers.length + n := by
  intro n
  induction n with
  | zero =>
    intro layers ch evals last
    exact ⟨layers, ch, evals, last, rfl, by simp⟩
  | succ n ih =>
    intro layers ch evals last
    rw [build_layers_loop, if_pos hff]
    obtain ⟨layers', ch', evals', last', heq, hlen⟩ :=
      ih (layers ++ [(step ch evals).2.2]) (step ch evals).1 (step ch evals).2.1 evals
    refine ⟨layers', ch', evals', last', ?_, ?_⟩
    · rw [← heq]
    · rw [hlen]
      simp
      omega

/-! ## Claim C8: prover-side invariant violations abort -/

/-- C8: with a supported folding factor, `build_layers` on a fresh prover
succeeds and leaves a non-empty layers vector; calling it again on the
resulting state panics (dirty-state assertion); and `FoldingOptions::new`
panics exactly when the blowup factor is not a power of two or the folding
factor is not one of 2, 4, 8, 16. -/
theorem folding_prover_one_shot {E D C : Type}
    (step : C → List E → C × List E × D) (options : FoldingOptions)
    (channel channel2 : C) (evals evals2 : List E)
    (hff : options.folding_factor = 2 ∨ options.folding_factor = 4 ∨
      options.folding_factor = 8 ∨ options.folding_factor = 16) :
    (∃ layers' ch' last,
      FoldingProver.build_layers step options [] channel evals =
        some (layers', ch', last) ∧ layers' ≠ []) ∧
    (∀ layers' ch' last,
      FoldingProver.build_layers step options [] channel evals =
        some (layers', ch', last) →
      FoldingProver.build_layers step options layers' channel2 evals2 = none) ∧
    (∀ bf ff ds lpmd, FoldingOptions.new bf ff ds lpmd = none ↔
      (is_power_of_two bf = false ∨
        ¬(ff = 2 ∨ ff = 4 ∨ ff = 8 ∨ ff = 16))) := by
  obtain ⟨layers', ch', evals', last', heq, hlen⟩ :=
    build_layers_loop_supported step options.folding_factor hff
      options.num_fri_layers [] channel evals []
  have hpos : 1 ≤ options.num_fri_layers := by
    simp [FoldingOptions.num_fri_layers]
  have hne : layers' ≠ [] := by
    intro h
    rw [h] at hlen
    simp at hlen
    omega
  refine ⟨⟨layers', ch', last', ?_, hne⟩, ?_, ?_⟩
  · rw [FoldingProver.build_layers, if_pos (by simp), heq]
  · intro l2 c2 la2 h2
    have hl2 : l2 = layers' := by
      rw [FoldingProver.build_layers, if_pos (by simp), heq] at h2
      simp only [Option.some_inj, Prod.mk.injEq] at h2
      exact h2.1.symm
    subst hl2
    rw [FoldingProver.build_layers, if_neg (by simp [hne])]
  · intro bf ff ds lpmd
    rw [FoldingOptions.new]
    by_cases h1 : is_power_of_two bf = false
    · simp [h1]
    · by_cases h2 : ff = 2 ∨ ff = 4 ∨ ff = 8 ∨ ff = 16
      · simp [h1, h2]
      · simp [h1, h2]

/-- C8 witness: a trivial abstract layer step over `Nat` data, with the
supported options `⟨2, 2, 16, 0⟩`. -/
theorem folding_prover_one_shot_witness :
    ((⟨2, 2, 16, 0⟩ : FoldingOptions).folding_factor = 2 ∨
      (⟨2, 2, 16, 0⟩ : FoldingOptions).folding_factor = 4 ∨
      (⟨2, 2, 16, 0⟩ : FoldingOptions).folding_factor = 8 ∨
      (⟨2, 2, 16, 0⟩ : FoldingOptions).folding_factor = 16) ∧
    ((∃ layers' ch' last,
      FoldingProver.build_layers (fun (c : Nat) (e : List Nat) => (c, e, c))
          ⟨2, 2, 16, 0⟩ [] 0 [] = some (layers', ch', last) ∧ layers' ≠ []) ∧
    (∀ layers' ch' last,
      FoldingProver.build_layers (fun (c : Nat) (e : List Nat) => (c, e, c))
          ⟨2, 2, 16, 0⟩ [] 0 [] = some (layers', ch', last) →
      FoldingProver.build_layers (fun (c : Nat) (e : List Nat) => (c, e, c))
          ⟨2, 2, 16, 0⟩ layers' 1 [] = none) ∧
    (∀ bf ff ds lpmd, FoldingOptions.new bf ff ds lpmd = none ↔
      (is_power_of_two bf = false ∨
        ¬(ff = 2 ∨ ff = 4 ∨ ff = 8 ∨ ff = 16)))) :=
  ⟨by decide,
    folding_prover_one_shot (fun (c : Nat) (e : List Nat) => (c, e, c))
      ⟨2, 2, 16, 0⟩ 0 1 [] [] (by decide)⟩

/-! ## Transcript order in Fold-and-Batch (claim C6)

The random coin is embedded as its absorb history: a list of the digests it
has been reseeded with, in order.  Drawing a challenge is an abstract
function of that history (`RandomCoin::draw` depends deterministically on
the seed/reseed sequence and the draw counter; `α` is the first draw after
the reseeds in both code paths, so a function of the history suffices for
the ordering claim). -/

/-- Embeds `BatchedFriProverChannel` (`src/fri/src/batched_prover/channel.rs`):
public coin (as absorb history) plus the recorded function and layer
commitments. -/
structure BatchedFriProverChannel (D : Type) where
  coin : List D
  function_commitments : List D
  layer_commitments : List D

/-- Embeds `BatchedFriProverChannel::push_function_commitment`: records the
commitment and reseeds the public coin with it. -/
def push_function_commitment {D : Type} (c : BatchedFriProverChannel D)
    (function_root : D) : BatchedFriProverChannel D :=
  { c with
      function_commitments := c.function_commitments ++ [function_root],
      coin := c.coin ++ [function_root] }

/-- Step 2 of `BatchedFriProver::prove_fold_and_batch`
(`src/fri/src/batched_prover/mod.rs`): for each worker's layer-commitment
vector, in order, push its last commitment (`last().unwrap()`; `none`
models the unwrap panic on an empty vector). -/
def master_push_function_commitments {D : Type}
    (channel : BatchedFriProverChannel D) :
    List (List D) → Option (BatchedFriProverChannel D)
  | [] => some channel
  | v :: rest =>
    match v.getLast? with
    | none => none
    | some d => master_push_function_commitments (push_function_commitment channel d) rest

/-- Steps 2–3 of `prove_fold_and_batch`: push all the workers' last layer
commitments, then draw the batching challenge `α` from the channel's coin. -/
def master_absorb_and_draw {D A : Type} (drawF : List D → A)
    (channel : BatchedFriProverChannel D)
    (worker_layer_commitments : List (List D)) :
    Option (BatchedFriProverChannel D × A) :=
  match master_push_function_commitments channel worker_layer_commitments with
  | none => none
  | some ch => some (ch, drawF ch.coin)

/-- The reseed loop at the start of
`FoldAndBatchVerifier::verify_batched_fri`
(`src/fri/src/fold_and_batch_verifier/mod.rs`): reseed the public coin with
every commitment of every worker's layer-commitment vector, in order. -/
def verifier_reseed_worker_commitments {D : Type} (coin : List D)
    (worker_layer_commitments : List (List D)) : List D :=
  worker_layer_commitments.foldl
    (fun c commitments_vec => commitments_vec.foldl (fun c d => c ++ [d]) c)
    coin

/-- The verifier's batching challenge: drawn right after the reseed loop. -/
def verifier_draw_batching_challenge {D A : Type} (drawF : List D → A)
    (coin : List D) (worker_layer_commitments : List (List D)) : A :=
  drawF (verifier_reseed_worker_commitments coin worker_layer_commitments)

lemma foldl_append_singleton {D : Type} (v : List D) :
    ∀ c : List D, v.foldl (fun c d => c ++ [d]) c = c ++ v := by
  induction v with
  | nil => intro c; simp
  | cons d v ih =>
    intro c
    rw [List.foldl_cons, ih]
    simp

lemma master_push_function_commitments_spec {D : Type} :
    ∀ (wlc : List (List D)) (channel : BatchedFriProverChannel D),
      (∀ v ∈ wlc, v ≠ []) →
      master_push_function_commitments channel wlc =
        some { channel with
          coin := channel.coin ++ wlc.filterMap List.getLast?,
          function_commitments :=
            channel.function_commitments ++ wlc.filterMap List.getLast? } := by
  intro wlc
  induction wlc with
  | nil => intro channel _; simp [master_push_function_commitments]
  | cons v rest ih =>
    intro channel hne
    have hv : v ≠ [] := hne v (List.mem_cons_self v rest)
    rcases Option.isSome_iff_exists.mp
      (by rwa [List.getLast?_isSome] : (v.getLast?).isSome) with ⟨d, hd⟩
    rw [master_push_function_commitments, hd]
    dsimp only
    rw [ih (push_function_commitment channel d)
        (fun x hx => hne x (List.mem_cons_of_mem v hx))]
    simp [push_function_commitment, List.filterMap_cons, hd]

lemma filterMap_getLast?_length {D : Type} :
    ∀ (wlc : List (List D)), (∀ v ∈ wlc, v ≠ []) →
      (wlc.filterMap List.getLast?).length = wlc.length := by
  intro wlc
  induction wlc with
  | nil => intro _; simp
  | cons v rest ih =>
    intro hne
    have hv : v ≠ [] := hne v (List.mem_cons_self v rest)
    rcases Option.isSome_iff_exists.mp
      (by rwa [List.getLast?_isSome] : (v.getLast?).isSome) with ⟨d, hd⟩
    simp [List.filterMap_cons, hd,
      ih (fun x hx => hne x (List.mem_cons_of_mem v hx))]

lemma verifier_reseed_eq_flatten {D : Type} :
    ∀ (wlc : List (List D)) (coin : List D),
      verifier_reseed_worker_commitments coin wlc = coin ++ wlc.flatten := by
  intro wlc
  induction wlc with
  | nil => intro coin; simp [verifier_reseed_worker_commitments]
  | cons v rest ih =>
    intro coin
    rw [show verifier_reseed_worker_commitments coin (v :: rest) =
        verifier_reseed_worker_commitments (v.foldl (fun c d => c ++ [d]) coin)
          rest from rfl]
    rw [foldl_append_singleton, ih]
    simp

/-! ## Claim C6: transcript order before the batching challenge -/

/-- C6: in `prove_fold_and_batch`, the master reseeds its coin with exactly
each worker's last layer commitment, in ascending worker order, and draws
`α` from the resulting history; in `verify_batched_fri`, the verifier
reseeds its coin with every commitment of every worker's layer-commitment
vector (all layers, ascending worker order) before drawing `α`. -/
theorem fold_and_batch_transcript_order {D A : Type} (drawF : List D → A)
    (channel : BatchedFriProverChannel D) (coin : List D)
    (wlc : List (List D)) (hne : ∀ v ∈ wlc, v ≠ []) :
    (master_absorb_and_draw drawF channel wlc =
      some ({ channel with
          coin := channel.coin ++ wlc.filterMap List.getLast?,
          function_commitments :=
            channel.function_commitments ++ wlc.filterMap List.getLast? },
        drawF (channel.coin ++ wlc.filterMap List.getLast?)) ∧
      (wlc.filterMap List.getLast?).length = wlc.length) ∧
    (verifier_reseed_worker_commitments coin wlc = coin ++ wlc.flatten ∧
      verifier_draw_batching_challenge drawF coin wlc =
        drawF (coin ++ wlc.flatten)) := by
  refine ⟨⟨?_, filterMap_getLast?_length wlc hne⟩,
    verifier_reseed_eq_flatten wlc coin, ?_⟩
  · rw [master_absorb_and_draw, master_push_function_commitments_spec wlc channel hne]
  · rw [verifier_draw_batching_challenge, verifier_reseed_eq_flatten wlc coin]

/-- C6 witness: two workers with layer-commitment vectors `[1, 2]` and
`[3]` over `Nat` digests, and the identity draw function. -/
theorem fold_and_batch_transcript_order_witness :
    (∀ v ∈ [[1, 2], [3]], v ≠ []) ∧
    ((master_absorb_and_draw (fun h => h) (⟨[], [], []⟩ : BatchedFriProverChannel Nat)
        [[1, 2], [3]] =
      some ({ (⟨[], [], []⟩ : BatchedFriProverChannel Nat) with
          coin := (⟨[], [], []⟩ : BatchedFriProverChannel Nat).coin ++
            ([[1, 2], [3]].filterMap List.getLast?),
          function_commitments :=
            (⟨[], [], []⟩ : BatchedFriProverChannel Nat).function_commitments ++
              ([[1, 2], [3]].filterMap List.getLast?) },
        (fun (h : List Nat) => h)
          ((⟨[], [], []⟩ : BatchedFriProverChannel Nat).coin ++
            ([[1, 2], [3]].filterMap List.getLast?))) ∧
      (([[1, 2], [3]] : List (List Nat)).filterMap List.getLast?).length =
        ([[1, 2], [3]] : List (List Nat)).length) ∧
    (verifier_reseed_worker_commitments [9] [[1, 2], [3]] =
        [9] ++ ([[1, 2], [3]] : List (List Nat)).flatten ∧
      verifier_draw_batching_challenge (fun h => h) [9] [[1, 2], [3]] =
        (fun (h : List Nat) => h) ([9] ++ ([[1, 2], [3]] : List (List Nat)).flatten))) :=
  ⟨by decide,
    fold_and_batch_transcript_order (fun h => h) ⟨[], [], []⟩ [9] [[1, 2], [3]]
      (by decide)⟩

/-! ## Byte-level serialization (`src/fri/src/fold_and_batch_proof.rs`)

Byte strings are `List Nat`; the writers emit entries below 256 and
truncate counts exactly where the source casts (`as u8`, `as u16`,
`as u32`).  Integers are little-endian, as in the `utils` byte
writer/reader the source uses.

`FriProofLayer` and the hash digests are external to the snapshot (the
`crate::proof` / `crypto` modules are not under `src/`); both are
`Serializable`/`Deserializable` values with a self-delimiting byte format,
so they are abstracted as type parameters together with their codecs, and
the round-trip theorems take the codecs' correctness as hypotheses.
`FriProof`'s own wire format is modelled from the spec. -/

def write_u8 (n : Nat) : List Nat := [n % 256]

def write_u16 (n : Nat) : List Nat := [n % 256, n / 256 % 256]

def write_u32 (n : Nat) : List Nat :=
  [n % 256, n / 256 % 256, n / 65536 % 256, n / 16777216 % 256]

def read_u8 : List Nat → Option (Nat × List Nat)
  | [] => none
  | b :: rest => some (b, rest)

def read_u16 : List Nat → Option (Nat × List Nat)
  | b0 :: b1 :: rest => some (b0 + 256 * b1, rest)
  | _ => none

def read_u32 : List Nat → Option (Nat × List Nat)
  | b0 :: b1 :: b2 :: b3 :: rest =>
      some (b0 + 256 * b1 + 65536 * b2 + 16777216 * b3, rest)
  | _ => none

/-- Embeds `ByteReader::read_vec`: take exactly `n` bytes. -/
def read_vec (n : Nat) (bs : List Nat) : Option (List Nat × List Nat) :=
  if n ≤ bs.length then some (bs.take n, bs.drop n) else none

/-- Embeds `ByteReader::read_many`: decode `n` consecutive values. -/
def read_many {A : Type} (dec : List Nat → Option (A × List Nat)) :
    Nat → List Nat → Option (List A × List Nat)
  | 0, bs => some ([], bs)
  | n + 1, bs =>
    match dec bs with
    | none => none
    | some (a, rest) =>
      match read_many dec n rest with
      | none => none
      | some (items, rest2) => some (a :: items, rest2)

lemma read_u8_write (n : Nat) (h : n < 256) (rest : List Nat) :
    read_u8 (write_u8 n ++ rest) = some (n, rest) := by
  simp [read_u8, write_u8, Nat.mod_eq_of_lt h]

lemma read_u16_write (n : Nat) (h : n < 65536) (rest : List Nat) :
    read_u16 (write_u16 n ++ rest) = some (n, rest) := by
  simp only [write_u16, List.cons_append, List.nil_append, read_u16,
    Option.some_inj, Prod.mk.injEq, and_true]
  omega

lemma read_u32_write (n : Nat) (h : n < 4294967296) (rest : List Nat) :
    read_u32 (write_u32 n ++ rest) = some (n, rest) := by
  simp only [write_u32, List.cons_append, List.nil_append, read_u32,
    Option.some_inj, Prod.mk.injEq, and_true]
  omega

lemma read_vec_write (v rest : List Nat) :
    read_vec v.length (v ++ rest) = some (v, rest) := by
  rw [read_vec, if_pos (by simp)]
  rw [List.take_left, List.drop_left]

lemma read_many_roundtrip {A : Type} (enc : A → List Nat)
    (dec : List Nat → Option (A × List Nat)) :
    ∀ (l : List A),
      (∀ a ∈ l, ∀ rest, dec (enc a ++ rest) = some (a, rest)) →
      ∀ rest, read_many dec l.length ((l.map enc).flatten ++ rest) =
        some (l, rest) := by
  intro l
  induction l with
  | nil => intro _ rest; simp [read_many]
  | cons a l ih =>
    intro hdec rest
    simp only [List.map_cons, List.flatten_cons, List.length_cons,
      List.append_assoc]
    rw [read_many, hdec a (List.mem_cons_self a l)]
    dsimp only
    rw [ih (fun x hx => hdec x (List.mem_cons_of_mem a hx)) rest]

/-- Embeds `FoldingProof` (`src/fri/src/fold_and_batch_proof.rs`): a vector of FRI
proof layers; the layer type and its byte codec are parameters (the
`FriProofLayer` implementation is outside the snapshot). -/
structure FoldingProof (Layer : Type) where
  folding_proof : List Layer
deriving DecidableEq

/-- Embeds `FoldingProof::write_into`: `u8` layer count, then the layers. -/
def FoldingProof.write_into {Layer : Type} (lEnc : Layer → List Nat)
    (p : FoldingProof Layer) : List Nat :=
  write_u8 p.folding_proof.length ++ (p.folding_proof.map lEnc).flatten

/-- Embeds `FoldingProof::read_from`: rejects a zero layer count. -/
def FoldingProof.read_from {Layer : Type}
    (lDec : List Nat → Option (Layer × List Nat)) (source : List Nat) :
    Option (FoldingProof Layer × List Nat) :=
  match read_u8 source with
  | none => none
  | some (num_layers, rest) =>
    if num_layers = 0 then none
    else
      match read_many lDec num_layers rest with
      | none => none
      | some (layers, rest2) => some (⟨layers⟩, rest2)

/-- Modelled from the spec: winterfell's `FriProof` (its module is not under
`src/`): layer list, remainder bytes and partition count, with wire format
`u8` num_layers ‖ layers ‖ `u8` num_remainder_partitions ‖ `u32` remainder
byte-length ‖ remainder bytes. -/
structure FriProof (Layer : Type) where
  layers : List Layer
  remainder : List Nat
  num_partitions : Nat
deriving DecidableEq

/-- Modelled from the spec: `FriProof::write_into`. -/
def FriProof.write_into {Layer : Type} (lEnc : Layer → List Nat)
    (p : FriProof Layer) : List Nat :=
  write_u8 p.layers.length ++ (p.layers.map lEnc).flatten ++
  write_u8 p.num_partitions ++ write_u32 p.remainder.length ++ p.remainder

/-- Modelled from the spec: `FriProof::read_from`. -/
def FriProof.read_from {Layer : Type}
    (lDec : List Nat → Option (Layer × List Nat)) (source : List Nat) :
    Option (FriProof Layer × List Nat) :=
  match read_u8 source with
  | none => none
  | some (num_layers, r1) =>
    match read_many lDec num_layers r1 with
    | none => none
    | some (layers, r2) =>
      match read_u8 r2 with
      | none => none
      | some (num_partitions, r3) =>
        match read_u32 r3 with
        | none => none
        | some (rem_len, r4) =>
          match read_vec rem_len r4 with
          | none => none
          | some (remainder, r5) => some (⟨layers, remainder, num_partitions⟩, r5)

/-- One worker-evaluations entry on the wire: `u16` byte length, bytes. -/
def write_eval_vec (v : List Nat) : List Nat := write_u16 v.length ++ v

def read_eval_vec (source : List Nat) : Option (List Nat × List Nat) :=
  match read_u16 source with
  | none => none
  | some (n, rest) => read_vec n rest

/-- One layer-commitments vector on the wire: `u8` count, then digests. -/
def write_commitment_vec {Digest : Type} (dEnc : Digest → List Nat)
    (v : List Digest) : List Nat :=
  write_u8 v.length ++ (v.map dEnc).flatten

def read_commitment_vec {Digest : Type}
    (dDec : List Nat → Option (Digest × List Nat)) (source : List Nat) :
    Option (List Digest × List Nat) :=
  match read_u8 source with
  | none => none
  | some (n, rest) => read_many dDec n rest

/-- Embeds `FoldAndBatchProof` (`src/fri/src/fold_and_batch_proof.rs`); the
evaluation fields hold raw bytes, as in the source. -/
structure FoldAndBatchProof (Layer Digest : Type) where
  folding_proofs : List (FoldingProof Layer)
  fri_proof : FriProof Layer
  worker_evaluations : List (List Nat)
  master_evaluations : List Nat
  worker_layer_commitments : List (List Digest)
  master_layer_commitments : List Digest
deriving DecidableEq

/-- Embeds `FoldAndBatchProof::write_into`. -/
def FoldAndBatchProof.write_into {Layer Digest : Type}
    (lEnc : Layer → List Nat) (dEnc : Digest → List Nat)
    (p : FoldAndBatchProof Layer Digest) : List Nat :=
  write_u32 p.folding_proofs.length ++
  (p.folding_proofs.map (FoldingProof.write_into lEnc)).flatten ++
  FriProof.write_into lEnc p.fri_proof ++
  write_u32 p.worker_evaluations.length ++
  (p.worker_evaluations.map write_eval_vec).flatten ++
  write_u16 p.master_evaluations.length ++ p.master_evaluations ++
  write_u32 p.worker_layer_commitments.length ++
  (p.worker_layer_commitments.map (write_commitment_vec dEnc)).flatten ++
  write_u8 p.master_layer_commitments.length ++
  (p.master_layer_commitments.map dEnc).flatten

/-- Embeds `FoldAndBatchProof::read_from`. -/
def FoldAndBatchProof.read_from {Layer Digest : Type}
    (lDec : List Nat → Option (Layer × List Nat))
    (dDec : List Nat → Option (Digest × List Nat)) (source : List Nat) :
    Option (FoldAndBatchProof Layer Digest × List Nat) :=
  match read_u32 source with
  | none => none
  | some (num_folding, r1) =>
    match read_many (FoldingProof.read_from lDec) num_folding r1 with
    | none => none
    | some (folding_proofs, r2) =>
      match FriProof.read_from lDec r2 with
      | none => none
      | some (fri_proof, r3) =>
        match read_u32 r3 with
        | none => none
        | some (num_workers, r4) =>
          match read_many read_eval_vec num_workers r4 with
          | none => none
          | some (worker_evaluations, r5) =>
            match read_eval_vec r5 with
            | none => none
            | some (master_evaluations, r6) =>
              match read_u32 r6 with
              | none => none
              | some (num_workers2, r7) =>
                match read_many (read_commitment_vec dDec) num_workers2 r7 with
                | none => none
                | some (worker_layer_commitments, r8) =>
                  match read_commitment_vec dDec r8 with
                  | none => none
                  | some (master_layer_commitments, r9) =>
                    some (⟨folding_proofs, fri_proof, worker_evaluations,
                      master_evaluations, worker_layer_commitments,
                      master_layer_commitments⟩, r9)

lemma foldingProof_roundtrip {Layer : Type} (lEnc : Layer → List Nat)
    (lDec : List Nat → Option (Layer × List Nat)) (p : FoldingProof Layer)
    (hl : ∀ a ∈ p.folding_proof, ∀ rest, lDec (lEnc a ++ rest) = some (a, rest))
    (h1 : 1 ≤ p.folding_proof.length) (h2 : p.folding_proof.length ≤ 255)
    (rest : List Nat) :
    FoldingProof.read_from lDec (FoldingProof.write_into lEnc p ++ rest) =
      some (p, rest) := by
  have hb : p.folding_proof.length < 256 := by omega
  rw [FoldingProof.read_from, FoldingProof.write_into, List.append_assoc,
    read_u8_write _ hb _]
  dsimp only
  rw [if_neg (by omega)]
  rw [read_many_roundtrip lEnc lDec p.folding_proof hl rest]

lemma friProof_roundtrip {Layer : Type} (lEnc : Layer → List Nat)
    (lDec : List Nat → Option (Layer × List Nat)) (p : FriProof Layer)
    (hl : ∀ a ∈ p.layers, ∀ rest, lDec (lEnc a ++ rest) = some (a, rest))
    (h1 : p.layers.length ≤ 255) (h2 : p.num_partitions ≤ 255)
    (h3 : p.remainder.length < 4294967296) (rest : List Nat) :
    FriProof.read_from lDec (FriProof.write_into lEnc p ++ rest) =
      some (p, rest) := by
  have hb1 : p.layers.length < 256 := by omega
  have hb2 : p.num_partitions < 256 := by omega
  rw [FriProof.read_from, FriProof.write_into]
  simp only [List.append_assoc]
  rw [read_u8_write _ hb1 _]
  dsimp only
  rw [read_many_roundtrip lEnc lDec p.layers hl _]
  dsimp only
  rw [read_u8_write _ hb2 _]
  dsimp only
  rw [read_u32_write _ h3 _]
  dsimp only
  rw [read_vec_write p.remainder rest]

lemma read_eval_vec_roundtrip (v : List Nat) (h : v.length < 65536)
    (rest : List Nat) :
    read_eval_vec (write_u16 v.length ++ (v ++ rest)) = some (v, rest) := by
  rw [read_eval_vec, read_u16_write _ h _]
  dsimp only
  exact read_vec_write v rest

lemma write_eval_vec_roundtrip (v : List Nat) (h : v.length < 65536)
    (rest : List Nat) :
    read_eval_vec (write_eval_vec v ++ rest) = some (v, rest) := by
  rw [write_eval_vec, List.append_assoc]
  exact read_eval_vec_roundtrip v h rest

lemma read_commitment_vec_roundtrip {Digest : Type} (dEnc : Digest → List Nat)
    (dDec : List Nat → Option (Digest × List Nat)) (v : List Digest)
    (hd : ∀ d ∈ v, ∀ rest, dDec (dEnc d ++ rest) = some (d, rest))
    (h : v.length ≤ 255) (rest : List Nat) :
    read_commitment_vec dDec (write_u8 v.length ++ ((v.map dEnc).flatten ++ rest)) =
      some (v, rest) := by
  have hb : v.length < 256 := by omega
  rw [read_commitment_vec, read_u8_write _ hb _]
  dsimp only
  exact read_many_roundtrip dEnc dDec v hd rest

lemma write_commitment_vec_roundtrip {Digest : Type} (dEnc : Digest → List Nat)
    (dDec : List Nat → Option (Digest × List Nat)) (v : List Digest)
    (hd : ∀ d ∈ v, ∀ rest, dDec (dEnc d ++ rest) = some (d, rest))
    (h : v.length ≤ 255) (rest : List Nat) :
    read_commitment_vec dDec (write_commitment_vec dEnc v ++ rest) =
      some (v, rest) := by
  rw [write_commitment_vec, List.append_assoc]
  exact read_commitment_vec_roundtrip dEnc dDec v hd h rest

lemma foldAndBatchProof_roundtrip {Layer Digest : Type}
    (lEnc : Layer → List Nat) (lDec : List Nat → Option (Layer × List Nat))
    (dEnc : Digest → List Nat) (dDec : List Nat → Option (Digest × List Nat))
    (hl : ∀ a rest, lDec (lEnc a ++ rest) = some (a, rest))
    (hd : ∀ d rest, dDec (dEnc d ++ rest) = some (d, rest))
    (p : FoldAndBatchProof Layer Digest)
    (h1 : p.folding_proofs.length < 4294967296)
    (h2 : ∀ q ∈ p.folding_proofs,
      1 ≤ q.folding_proof.length ∧ q.folding_proof.length ≤ 255)
    (h3 : p.fri_proof.layers.length ≤ 255)
    (h4 : p.fri_proof.num_partitions ≤ 255)
    (h5 : p.fri_proof.remainder.length < 4294967296)
    (h6 : p.worker_evaluations.length < 4294967296)
    (h7 : ∀ v ∈ p.worker_evaluations, v.length < 65536)
    (h8 : p.master_evaluations.length < 65536)
    (h9 : p.worker_layer_commitments.length < 4294967296)
    (h10 : ∀ v ∈ p.worker_layer_commitments, v.length ≤ 255)
    (h11 : p.master_layer_commitments.length ≤ 255)
    (rest : List Nat) :
    FoldAndBatchProof.read_from lDec dDec
        (FoldAndBatchProof.write_into lEnc dEnc p ++ rest) = some (p, rest) := by
  rw [FoldAndBatchProof.read_from, FoldAndBatchProof.write_into]
  simp only [List.append_assoc]
  rw [read_u32_write _ h1 _]
  dsimp only
  rw [read_many_roundtrip (FoldingProof.write_into lEnc)
    (FoldingProof.read_from lDec) p.folding_proofs
    (fun q hq r => foldingProof_roundtrip lEnc lDec q (fun a _ r2 => hl a r2)
      (h2 q hq).1 (h2 q hq).2 r) _]
  dsimp only
  rw [friProof_roundtrip lEnc lDec p.fri_proof (fun a _ r2 => hl a r2)
    h3 h4 h5 _]
  dsimp only
  rw [read_u32_write _ h6 _]
  dsimp only
  rw [read_many_roundtrip write_eval_vec read_eval_vec p.worker_evaluations
    (fun v hv r => write_eval_vec_roundtrip v (h7 v hv) r) _]
  dsimp only
  rw [read_eval_vec_roundtrip p.master_evaluations h8 _]
  dsimp only
  rw [read_u32_write _ h9 _]
  dsimp only
  rw [read_many_roundtrip (write_commitment_vec dEnc) (read_commitment_vec dDec)
    p.worker_layer_commitments
    (fun v hv r => write_commitment_vec_roundtrip dEnc dDec v
      (fun d _ r2 => hd d r2) (h10 v hv) r) _]
  dsimp only
  rw [read_commitment_vec_roundtrip dEnc dDec p.master_layer_commitments
    (fun d _ r2 => hd d r2) h11 rest]

/-! ## Claim C2: serialization round-trip -/

/-- C2: for layer/digest codecs that round-trip (as the external
`FriProofLayer` and digest codecs do), `read_from ∘ write_into` is the
identity on every `FoldingProof` with 1–255 layers and on every
`FoldAndBatchProof` whose vector lengths fit the length-prefix widths of
the encoder (`u8` for layer and commitment counts, `u16` for evaluation
byte lengths, `u32` for folding-proof and worker counts). -/
theorem proof_serialization_roundtrip {Layer Digest : Type}
    (lEnc : Layer → List Nat) (lDec : List Nat → Option (Layer × List Nat))
    (dEnc : Digest → List Nat) (dDec : List Nat → Option (Digest × List Nat))
    (hl : ∀ a rest, lDec (lEnc a ++ rest) = some (a, rest))
    (hd : ∀ d rest, dDec (dEnc d ++ rest) = some (d, rest))
    (fp : FoldingProof Layer) (rest1 : List Nat)
    (hfp1 : 1 ≤ fp.folding_proof.length) (hfp2 : fp.folding_proof.length ≤ 255)
    (p : FoldAndBatchProof Layer Digest) (rest2 : List Nat)
    (h1 : p.folding_proofs.length < 4294967296)
    (h2 : ∀ q ∈ p.folding_proofs,
      1 ≤ q.folding_proof.length ∧ q.folding_proof.length ≤ 255)
    (h3 : p.fri_proof.layers.length ≤ 255)
    (h4 : p.fri_proof.num_partitions ≤ 255)
    (h5 : p.fri_proof.remainder.length < 4294967296)
    (h6 : p.worker_evaluations.length < 4294967296)
    (h7 : ∀ v ∈ p.worker_evaluations, v.length < 65536)
    (h8 : p.master_evaluations.length < 65536)
    (h9 : p.worker_layer_commitments.length < 4294967296)
    (h10 : ∀ v ∈ p.worker_layer_commitments, v.length ≤ 255)
    (h11 : p.master_layer_commitments.length ≤ 255) :
    FoldingProof.read_from lDec (FoldingProof.write_into lEnc fp ++ rest1) =
      some (fp, rest1) ∧
    FoldAndBatchProof.read_from lDec dDec
        (FoldAndBatchProof.write_into lEnc dEnc p ++ rest2) = some (p, rest2) :=
  ⟨foldingProof_roundtrip lEnc lDec fp (fun a _ r => hl a r) hfp1 hfp2 rest1,
    foldAndBatchProof_roundtrip lEnc lDec dEnc dDec hl hd p
      h1 h2 h3 h4 h5 h6 h7 h8 h9 h10 h11 rest2⟩

/-- Trivial self-delimiting codec for an abstract `FriProofLayer`
(zero-byte encoding), used to instantiate the round-trip theorem. -/
def unit_layer_enc : Unit → List Nat := fun _ => []

def unit_layer_dec : List Nat → Option (Unit × List Nat) :=
  fun bs => some ((), bs)

/-- Trivial fixed-width (one byte) digest codec. -/
def unit_digest_enc : Unit → List Nat := fun _ => [0]

def unit_digest_dec : List Nat → Option (Unit × List Nat) :=
  fun bs =>
    match bs with
    | [] => none
    | _ :: rest => some ((), rest)

/-- A small `FoldAndBatchProof` used to exercise the round trip. -/
def roundtrip_example : FoldAndBatchProof Unit Unit :=
  { folding_proofs := [⟨[(), ()]⟩, ⟨[()]⟩],
    fri_proof := ⟨[(), ()], [5, 6, 7], 1⟩,
    worker_evaluations := [[1, 2], [3]],
    master_evaluations := [4, 5],
    worker_layer_commitments := [[(), ()], [()]],
    master_layer_commitments := [(), ()] }

/-- C2 witness: the round-trip theorem at the trivial codecs, a two-layer
folding proof, and `roundtrip_example`, each followed by trailing bytes. -/
theorem proof_serialization_roundtrip_witness :
    ((∀ a rest, unit_layer_dec (unit_layer_enc a ++ rest) = some (a, rest)) ∧
      (∀ d rest, unit_digest_dec (unit_digest_enc d ++ rest) = some (d, rest)) ∧
      1 ≤ (⟨[(), ()]⟩ : FoldingProof Unit).folding_proof.length ∧
      (⟨[(), ()]⟩ : FoldingProof Unit).folding_proof.length ≤ 255 ∧
      roundtrip_example.folding_proofs.length < 4294967296 ∧
      (∀ q ∈ roundtrip_example.folding_proofs,
        1 ≤ q.folding_proof.length ∧ q.folding_proof.length ≤ 255) ∧
      roundtrip_example.fri_proof.layers.length ≤ 255 ∧
      roundtrip_example.fri_proof.num_partitions ≤ 255 ∧
      roundtrip_example.fri_proof.remainder.length < 4294967296 ∧
      roundtrip_example.worker_evaluations.length < 4294967296 ∧
      (∀ v ∈ roundtrip_example.worker_evaluations, v.length < 65536) ∧
      roundtrip_example.master_evaluations.length < 65536 ∧
      roundtrip_example.worker_layer_commitments.length < 4294967296 ∧
      (∀ v ∈ roundtrip_example.worker_layer_commitments, v.length ≤ 255) ∧
      roundtrip_example.master_layer_commitments.length ≤ 255) ∧
    (FoldingProof.read_from unit_layer_dec
        (FoldingProof.write_into unit_layer_enc (⟨[(), ()]⟩ : FoldingProof Unit)
          ++ [7]) = some (⟨[(), ()]⟩, [7]) ∧
      FoldAndBatchProof.read_from unit_layer_dec unit_digest_dec
        (FoldAndBatchProof.write_into unit_layer_enc unit_digest_enc
          roundtrip_example ++ [9]) = some (roundtrip_example, [9])) :=
  ⟨⟨fun a rest => rfl, fun d rest => rfl, by decide, by decide, by decide,
      by decide, by decide, by decide, by decide, by decide, by decide,
      by decide, by decide, by decide, by decide⟩,
    proof_serialization_roundtrip unit_layer_enc unit_layer_dec
      unit_digest_enc unit_digest_dec (fun a rest => rfl) (fun d rest => rfl)
      ⟨[(), ()]⟩ [7] (by decide) (by decide) roundtrip_example [9]
      (by decide) (by decide) (by decide) (by decide) (by decide) (by decide)
      (by decide) (by decide) (by decide) (by decide) (by decide)⟩

/-! ## Proof sizes (claim C9) -/

/-- Embeds `FoldingProof::size`: one byte for the layer count plus each layer's
size; the external `FriProofLayer::size` ("number of bytes in this proof
layer") is modelled as the layer's encoded byte length. -/
def FoldingProof.size {Layer : Type} (lEnc : Layer → List Nat)
    (p : FoldingProof Layer) : Nat :=
  p.folding_proof.foldl (fun acc layer => acc + (lEnc layer).length) 1

/-- Modelled from the spec: winterfell's `FriProof::size` (module not under
`src/`), documented as the number of bytes in the proof; modelled as the
byte length of its serialization. -/
def FriProof.size {Layer : Type} (lEnc : Layer → List Nat)
    (p : FriProof Layer) : Nat :=
  (FriProof.write_into lEnc p).length

/-- The per-vector summand of `FoldAndBatchProof::size` for a layer
commitment vector: `none` models the source's panics on an empty vector or
a zero digest size hint; otherwise `get_size_hint() * len + 2`
(`dSizeHint` models `Digest::get_size_hint`). -/
def commitments_vec_size {Digest : Type} (dSizeHint : Digest → Nat)
    (v : List Digest) : Option Nat :=
  match v with
  | [] => none
  | d :: _ => if dSizeHint d = 0 then none else some (dSizeHint d * v.length + 2)

/-- Embeds `FoldAndBatchProof::size` (`src/fri/src/fold_and_batch_proof.rs`),
including its documented byte accounting: 4 for the folding-proof count,
4 + (len + 2 each) for worker evaluations, len + 2 for master evaluations,
4 + (hint·len + 2 each) for worker layer commitments and hint·len + 2 for
the master layer commitments. -/
def FoldAndBatchProof.size {Layer Digest : Type} (lEnc : Layer → List Nat)
    (dSizeHint : Digest → Nat) (p : FoldAndBatchProof Layer Digest) :
    Option Nat :=
  let folding_proofs_size :=
    p.folding_proofs.foldl (fun acc fp => acc + FoldingProof.size lEnc fp) 4
  let fri_proof_size := FriProof.size lEnc p.fri_proof
  let worker_evaluations_size :=
    p.worker_evaluations.foldl (fun acc byte_vec => acc + byte_vec.length + 2) 4
  let master_evaluations_size := p.master_evaluations.length + 2
  match option_map_list (commitments_vec_size dSizeHint)
      p.worker_layer_commitments with
  | none => none
  | some sizes =>
    let worker_layer_commitments_size := sizes.foldl (fun acc s => acc + s) 4
    match commitments_vec_size dSizeHint p.master_layer_commitments with
    | none => none
    | some master_layer_commitments_size =>
      some (folding_proofs_size + fri_proof_size + worker_evaluations_size +
        master_evaluations_size + worker_layer_commitments_size +
        master_layer_commitments_size)

/-- The digest size hint matching `unit_digest_enc` (one byte). -/
def unit_digest_size_hint : Unit → Nat := fun _ => 1

/-- A minimal well-formed proof (one worker, one layer, one commitment per
vector, empty evaluations) exhibiting the size/serialization mismatch. -/
def size_bug_example : FoldAndBatchProof Unit Unit :=
  { folding_proofs := [⟨[()]⟩],
    fri_proof := ⟨[], [], 0⟩,
    worker_evaluations := [[]],
    master_evaluations := [],
    worker_layer_commitments := [[()]],
    master_layer_commitments := [()] }

/-! ## Claim C9: size() versus serialized byte count -/

/-- C9: `FoldAndBatchProof::size()` does not equal the number of bytes
produced by `write_into`: on a minimal proof (one worker, one commitment
per vector, one-byte digests) `size()` returns 29 while the serialization
is 27 bytes long (and is accepted by `read_from`, so the stream, not the
writer, is the consistent side).  `size()` counts 2 bytes for each
commitment-vector length prefix where `write_into` emits a `u8`. -/
theorem fold_and_batch_size_mismatch :
    FoldAndBatchProof.size unit_layer_enc unit_digest_size_hint
      size_bug_example = some 29 ∧
    (FoldAndBatchProof.write_into unit_layer_enc unit_digest_enc
      size_bug_example).length = 27 ∧
    FoldAndBatchProof.read_from unit_layer_dec unit_digest_dec
        (FoldAndBatchProof.write_into unit_layer_enc unit_digest_enc
          size_bug_example) = some (size_bug_example, []) := by
  refine ⟨by decide, by decide, ?_⟩
  have h := foldAndBatchProof_roundtrip unit_layer_enc unit_layer_dec
    unit_digest_enc unit_digest_dec (fun a rest => rfl) (fun d rest => rfl)
    size_bug_example (by decide) (by decide) (by decide) (by decide)
    (by decide) (by decide) (by decide) (by decide) (by decide) (by decide)
    (by decide) []
  simpa using h

end Winterfell
